import Mathlib

/-!
Shallow embedding of the rmarsh Ruby Marshal 4.8 codec.

The generator side follows `src/unnamed/part_001` (the streaming push
generator: `Generator`, `genState`, `encodeLong`, the value-emitting
methods and the `checkState`/`writeAdv` state machine).  The parser side
follows the `Parser` defined in `src/generator.go` (`Parser.Next`,
`Parser.adv`, `Parser.advIVar`, `Parser.long`, `Parser.sizedBlob`,
`Parser.fill`, the context stack and the symbol/link range tables).

Modelling conventions, fixed once here:
* Go byte slices become `List Nat` (each entry kept below 256 by the
  arithmetic of the translated code itself).
* Go `int`/`int64` become `Int`; conversions to `byte` are spelled
  `% 256` / `emod 256`, and two's-complement bit operations on 64-bit
  ints are carried out on `Nat` bit patterns reduced `% 2^64`, exactly
  where the Go code relies on 64-bit wrapping.  Go's arithmetic right
  shift `>> 8` is `Int.fdiv · 256`.
* Go slices used as growable stacks/tables (`st[0:stSz]`,
  `symTbl[0:symCount]`, the range tables) become Lean lists holding the
  in-use prefix; capacity management (`make`/`copy` growth) has no
  observable effect and is dropped.  The generator's context stack is a
  list with the current frame `cur` at the head.
* The generator's write buffer `buf[0:bufn]` is the list `buf`; bytes
  flushed to the `io.Writer` accumulate in `out` (the sink is modelled
  as infallible, I/O errors are out of scope).
* The parser's read buffer is the list `buf` of all bytes consumed so
  far (`pos = buf.length`); positions at or past `pos` read as 0, which
  matches the Go zero-initialised, growth-only buffer for a parser that
  is parsing its first stream.
* `Generator.Float` is not modelled: its payload is produced by
  `strconv.AppendFloat` (floating-point decimal formatting), which does
  not translate to this embedding; no theorem below depends on it.
-/

/-- Modelled from the spec: the wire type-tag constants (`TYPE_NIL = '0'`,
`TYPE_TRUE = 'T'`, ... in the repository) are declared in a file of the
repository that is not under `src/`; their values are the ASCII tags fixed
by spec §4.1 and by the literal byte streams of spec §8. -/
def TYPE_NIL : Nat := 0x30

/-- Modelled from the spec: tag `T` (§4.1). -/
def TYPE_TRUE : Nat := 0x54

/-- Modelled from the spec: tag `F` (§4.1). -/
def TYPE_FALSE : Nat := 0x46

/-- Modelled from the spec: tag `i` (§4.1). -/
def TYPE_FIXNUM : Nat := 0x69

/-- Modelled from the spec: tag `f` (§4.1). -/
def TYPE_FLOAT : Nat := 0x66

/-- Modelled from the spec: tag `l` (§4.1). -/
def TYPE_BIGNUM : Nat := 0x6C

/-- Modelled from the spec: tag `"` (§4.1). -/
def TYPE_STRING : Nat := 0x22

/-- Modelled from the spec: tag `:` (§4.1). -/
def TYPE_SYMBOL : Nat := 0x3A

/-- Modelled from the spec: tag `;` (§4.1). -/
def TYPE_SYMLINK : Nat := 0x3B

/-- Modelled from the spec: tag `[` (§4.1). -/
def TYPE_ARRAY : Nat := 0x5B

/-- Modelled from the spec: tag `{` (§4.1). -/
def TYPE_HASH : Nat := 0x7B

/-- Modelled from the spec: tag `c` (§4.1). -/
def TYPE_CLASS : Nat := 0x63

/-- Modelled from the spec: tag `m` (§4.1). -/
def TYPE_MODULE : Nat := 0x6D

/-- Modelled from the spec: tag `I` (§4.1). -/
def TYPE_IVAR : Nat := 0x49

/-- Modelled from the spec: tag `@` (§4.1). -/
def TYPE_LINK : Nat := 0x40

/-- Modelled from the spec: `fixnumMin` is declared outside `src/`; spec §3
fixes the packed-long (= fixnum, §3 "Fixnum bounds") range as
`[-2^31, 2^31-1]`. -/
def fixnumMin : Int := -2147483648

/-- Modelled from the spec: `fixnumMax`, see `fixnumMin`. -/
def fixnumMax : Int := 2147483647

/-! ### Wire primitive: the packed-long encoder

`Generator.encodeLong` of `src/unnamed/part_001` (identical to the copy in
`src/generator.go`).  The Go method writes into `gen.buf`; here it is the
pure byte sequence appended, used by every generator method below. -/

/-- The multi-byte loop of `Generator.encodeLong`: `for i := 1; i < 5; i++`
emits `byte(n & 0xFF)`, shifts `n >>= 8` (arithmetic), and prepends the
length byte `byte(i)` on `n == 0` or `byte(-i)` on `n == -1`.  `fuel`
counts the remaining iterations (4 at entry); exhausting it corresponds to
the Go `panic`, which no 32-bit input reaches. -/
def encLongCore : Int → Nat → Nat → List Nat → List Nat
  | _, _, 0, acc => acc
  | n, i, fuel+1, acc =>
    let acc' := acc ++ [(n % 256).toNat]
    let n' := n.fdiv 256
    if n' = 0 then i :: acc'
    else if n' = -1 then (256 - i) :: acc'
    else encLongCore n' (i+1) fuel acc'

/-- `Generator.encodeLong n`: the packed-long byte sequence for `n`. -/
def encodeLong (n : Int) : List Nat :=
  if n = 0 then [0]
  else if 0 < n ∧ n < 0x7B then [(n + 5).toNat]
  else if -0x7C < n ∧ n < 0 then [((n - 5) % 256).toNat]
  else encLongCore n 1 4 []

/-! ### The generator (src/unnamed/part_001) -/

/-- `genStateItem`: one generator context-stack frame. -/
structure GenStateItem where
  cnt : Int
  pos : Int
  typ : Nat
  deriving Repr, DecidableEq

/-- `genStTop` frame kind. -/
def genStTop : Nat := 0

/-- `genStArr` frame kind. -/
def genStArr : Nat := 1

/-- `genStHash` frame kind. -/
def genStHash : Nat := 2

/-- Generator errors.  `finished`/`overflow` are `ErrGeneratorFinished` /
`ErrGeneratorOverflow`; the remaining constructors stand for the distinct
`errors.New`/`errors.Errorf` values of `EndArray`/`EndHash`.  `nilFrame`
marks the Go nil-pointer dereference `gen.st.cur` would take on an empty
stack (unreachable through the API, which always keeps the top frame). -/
inductive GErr where
  | finished
  | overflow
  | arrayCtx
  | arrayPremature
  | hashCtx
  | hashPremature
  | nilFrame
  deriving Repr, DecidableEq

/-- Generator state: `st` is `stack[0:sz]` with `cur` at the head, `buf` is
`buf[0:bufn]`, `out` the bytes already written to the sink, `symTbl` the
populated prefix `symTbl[0:symCount]`. -/
structure Generator where
  st : List GenStateItem
  buf : List Nat
  out : List Nat
  symTbl : List (List Nat)
  deriving Repr, DecidableEq

/-- `NewGenerator` followed by `Reset`: the synthetic top frame of size 1
and the magic `0x04 0x08` placed at the start of the scratch buffer. -/
def Generator.init : Generator :=
  { st := [{ cnt := 1, pos := 0, typ := genStTop }],
    buf := [0x04, 0x08], out := [], symTbl := [] }

/-- `Generator.checkState`: reject a write when the current frame is full —
`ErrGeneratorFinished` if it is the only frame (the synthetic top),
`ErrGeneratorOverflow` otherwise.  The buffer-growth half of the Go method
only manages capacity and is dropped. -/
def Generator.checkState (g : Generator) : Except GErr Unit :=
  match g.st with
  | [] => .error .nilFrame
  | c :: rest =>
    if c.pos = c.cnt then
      if rest = [] then .error .finished else .error .overflow
    else .ok ()

/-- `Generator.writeAdv`: advance the current frame's position; if that just
filled the synthetic top frame, flush the scratch buffer to the sink. -/
def Generator.writeAdv (g : Generator) : Generator :=
  match g.st with
  | [] => g
  | c :: rest =>
    let c' : GenStateItem := { c with pos := c.pos + 1 }
    if g.buf ≠ [] ∧ c'.pos = c'.cnt ∧ rest = [] then
      { g with st := c' :: rest, out := g.out ++ g.buf, buf := [] }
    else
      { g with st := c' :: rest }

/-- `genState.push`. -/
def Generator.push (g : Generator) (typ : Nat) (cnt : Int) : Generator :=
  { g with st := { cnt := cnt, pos := 0, typ := typ } :: g.st }

/-- `genState.pop`. -/
def Generator.pop (g : Generator) : Generator :=
  { g with st := g.st.tail }

/-- `Generator.Nil`. -/
def Generator.Nil (g : Generator) : Except GErr Generator :=
  match g.checkState with
  | .error e => .error e
  | .ok _ => .ok (Generator.writeAdv { g with buf := g.buf ++ [TYPE_NIL] })

/-- `Generator.Bool`. -/
def Generator.Bool (g : Generator) (b : Bool) : Except GErr Generator :=
  match g.checkState with
  | .error e => .error e
  | .ok _ =>
    .ok (Generator.writeAdv
      { g with buf := g.buf ++ [if b then TYPE_TRUE else TYPE_FALSE] })

/-- Go `math/big.Int` as the generator consumes it: the sign flag `neg` and
the little-endian base-2^64 magnitude words of `Bits()` (64-bit platform,
so the repository's `_S`, the byte width of a `big.Word`, is 8). -/
structure BigI where
  neg : Bool
  bits : List Nat
  deriving Repr, DecidableEq

/-- The `big.Int` representation invariant: words fit 64 bits, the most
significant word is nonzero, and zero is never negative. -/
def BigI.wf (b : BigI) : Prop :=
  (∀ w ∈ b.bits, w < 2^64) ∧
  (∀ d, b.bits.getLast? = some d → 0 < d) ∧
  (b.neg = true → b.bits ≠ [])

/-- `big.Int.SetInt64`. -/
def BigI.setInt64 (n : Int) : BigI :=
  { neg := decide (n < 0), bits := if n = 0 then [] else [n.natAbs] }

/-- `big.Int.Sign() < 0` decides the wire sign byte `'-'` / `'+'`. -/
def BigI.signByte (b : BigI) : Nat :=
  if b.bits ≠ [] ∧ b.neg = true then 0x2D else 0x2B

/-- `k` little-endian bytes of a word (the inner byte loop of
`Generator.Bignum` over a word that is not the last: all `_S` iterations
run, emitting `byte(d)` and shifting `d >>= 8`). -/
def wordLE (d : Nat) : Nat → List Nat
  | 0 => []
  | k+1 => d % 256 :: wordLE (d / 256) k

/-- The byte loop of `Generator.Bignum` over the LAST word: after each
emitted byte it shifts and stops once `d == 0`.  `fuel` is `_S = 8`. -/
def lastWordBytes (d : Nat) : Nat → List Nat
  | 0 => []
  | fuel+1 => d % 256 :: (if d / 256 = 0 then [] else lastWordBytes (d / 256) fuel)

/-- Byte count of `lastWordBytes` (the first, size-computing loop of
`Generator.Bignum` on the last word). -/
def lastWordSz (d : Nat) : Nat → Nat
  | 0 => 0
  | fuel+1 => 1 + (if d / 256 = 0 then 0 else lastWordSz (d / 256) fuel)

/-- The payload bytes `Generator.Bignum` emits for a word list. -/
def bigPayload : List Nat → List Nat
  | [] => []
  | d :: rest =>
    match rest with
    | [] => lastWordBytes d 8
    | _ :: _ => wordLE d 8 ++ bigPayload rest

/-- The byte count `sz` computed by the first loop of `Generator.Bignum`. -/
def bigSz : List Nat → Nat
  | [] => 0
  | d :: rest =>
    match rest with
    | [] => lastWordSz d 8
    | _ :: _ => 8 + bigSz rest

/-- `Generator.Bignum`: tag, sign byte, packed-long word count
(`math.Ceil(sz/2)` — exact, `sz` is even after padding), the per-word
little-endian bytes, and the zero pad up to the even byte count `sz`. -/
def Generator.Bignum (g : Generator) (b : BigI) : Except GErr Generator :=
  let sz0 := bigSz b.bits
  let sz := if sz0 % 2 = 1 then sz0 + 1 else sz0
  match g.checkState with
  | .error e => .error e
  | .ok _ =>
    .ok (Generator.writeAdv { g with
      buf := g.buf ++ [TYPE_BIGNUM, b.signByte]
        ++ encodeLong (((sz + 1) / 2 : Nat) : Int)
        ++ bigPayload b.bits ++ List.replicate (sz - sz0) 0 })

/-- `Generator.Fixnum`: values outside the fixnum bounds are routed to
`Bignum` via `SetInt64`. -/
def Generator.Fixnum (g : Generator) (n : Int) : Except GErr Generator :=
  if n < fixnumMin ∨ fixnumMax < n then g.Bignum (BigI.setInt64 n)
  else
    match g.checkState with
    | .error e => .error e
    | .ok _ =>
      .ok (Generator.writeAdv { g with buf := g.buf ++ [TYPE_FIXNUM] ++ encodeLong n })

/-- The oldest-first linear scan `for i := 0; i < gen.symCount; i++` of
`Generator.Symbol`, returning the first index holding `s`. -/
def symScan (tbl : List (List Nat)) (s : List Nat) : Option Nat :=
  match tbl with
  | [] => none
  | t :: rest => if t = s then some 0 else (symScan rest s).map (· + 1)

/-- `Generator.Symbol`: a symlink to the first table index holding `sym`,
or — on a miss — the symbol tag, packed-long length and raw bytes, with
`sym` appended to the table (taking the next id).  The capacity growth of
`symTbl` at the top of the Go method is not observable and is dropped. -/
def Generator.Symbol (g : Generator) (sym : List Nat) : Except GErr Generator :=
  match symScan g.symTbl sym with
  | some i =>
    match g.checkState with
    | .error e => .error e
    | .ok _ =>
      .ok (Generator.writeAdv { g with buf := g.buf ++ [TYPE_SYMLINK] ++ encodeLong (i : Int) })
  | none =>
    match g.checkState with
    | .error e => .error e
    | .ok _ =>
      .ok (Generator.writeAdv { g with
        buf := g.buf ++ [TYPE_SYMBOL] ++ encodeLong (sym.length : Int) ++ sym,
        symTbl := g.symTbl ++ [sym] })

/-- `Generator.String`. -/
def Generator.String (g : Generator) (s : List Nat) : Except GErr Generator :=
  match g.checkState with
  | .error e => .error e
  | .ok _ =>
    .ok (Generator.writeAdv { g with
      buf := g.buf ++ [TYPE_STRING] ++ encodeLong (s.length : Int) ++ s })

/-- `Generator.Class`. -/
def Generator.Class (g : Generator) (name : List Nat) : Except GErr Generator :=
  match g.checkState with
  | .error e => .error e
  | .ok _ =>
    .ok (Generator.writeAdv { g with
      buf := g.buf ++ [TYPE_CLASS] ++ encodeLong (name.length : Int) ++ name })

/-- `Generator.Module`. -/
def Generator.Module (g : Generator) (name : List Nat) : Except GErr Generator :=
  match g.checkState with
  | .error e => .error e
  | .ok _ =>
    .ok (Generator.writeAdv { g with
      buf := g.buf ++ [TYPE_MODULE] ++ encodeLong (name.length : Int) ++ name })

/-- `Generator.StartArray`: emits the tag and length, pushes an array frame
of count `l`; no `writeAdv` (the frame is closed by `EndArray`). -/
def Generator.StartArray (g : Generator) (l : Int) : Except GErr Generator :=
  match g.checkState with
  | .error e => .error e
  | .ok _ =>
    .ok (Generator.push { g with buf := g.buf ++ [TYPE_ARRAY] ++ encodeLong l } genStArr l)

/-- `Generator.EndArray`. -/
def Generator.EndArray (g : Generator) : Except GErr Generator :=
  match g.st with
  | [] => .error .arrayCtx
  | c :: _ =>
    if c.typ ≠ genStArr then .error .arrayCtx
    else if c.pos ≠ c.cnt then .error .arrayPremature
    else .ok (Generator.writeAdv g.pop)

/-- `Generator.StartHash`: wire length `l`, frame count `l * 2`. -/
def Generator.StartHash (g : Generator) (l : Int) : Except GErr Generator :=
  match g.checkState with
  | .error e => .error e
  | .ok _ =>
    .ok (Generator.push { g with buf := g.buf ++ [TYPE_HASH] ++ encodeLong l } genStHash (l * 2))

/-- `Generator.EndHash`. -/
def Generator.EndHash (g : Generator) : Except GErr Generator :=
  match g.st with
  | [] => .error .hashCtx
  | c :: _ =>
    if c.typ ≠ genStHash then .error .hashCtx
    else if c.pos ≠ c.cnt then .error .hashPremature
    else .ok (Generator.writeAdv g.pop)

/-- Run one generator pipeline from a fresh generator and observe the bytes
flushed to the sink. -/
def encodeTop (f : Generator → Except GErr Generator) : Except GErr (List Nat) :=
  (f Generator.init).map Generator.out

/-! ### The parser (src/generator.go, `Parser`) -/

/-- The `Token` constants of the parser, `tokenStart = 0` included. -/
inductive PTok where
  | tStart | tNil | tTrue | tFalse | tFixnum | tFloat | tBignum | tSymbol
  | tString | tStartArray | tEndArray | tStartHash | tEndHash | tStartIVar
  | tEndIVar | tLink | tEOF
  deriving Repr, DecidableEq

/-- Parser failures.  `unexpectedEOF` is `io.ErrUnexpectedEOF` surfaced as
an error (wrapping contexts such as "fixnum"/"ivar" collapsed),
`magicMismatch` the bad-header error, `symlinkRange` the "Symlink id %d is
larger than max known %d" error, `ivarExpectSym` the "expected Symbol"
error of `advIVar`, and `goPanic` a Go runtime panic (out-of-range slice
index / nil dereference), which is not an error value at all. -/
inductive PErr where
  | unexpectedEOF
  | magicMismatch
  | symlinkRange
  | ivarExpectSym
  | goPanic
  deriving Repr, DecidableEq

/-- `ctxArray` context kind. -/
def ctxArray : Nat := 0

/-- `ctxHash` context kind. -/
def ctxHash : Nat := 1

/-- `ctxIVar` context kind. -/
def ctxIVar : Nat := 2

/-- `rng`: a begin/end byte-position pair into the read buffer (`en` is the
Go field `end`, renamed only because `end` is reserved here). -/
structure Rng where
  beg : Nat
  en : Nat
  deriving Repr, DecidableEq

/-- `parserContext`: one parser context-stack frame. -/
structure ParserCtx where
  typ : Nat
  sz : Int
  pos : Int
  ivSym : Option (List Nat)
  deriving Repr, DecidableEq

/-- Parser state.  `input` is what the `io.Reader` has not yet delivered,
`buf` the bytes consumed so far (the Go write position `pos` is
`buf.length`), `st` the context stack `st[0:stSz]` with `cst` at the head,
and `symTbl`/`lnkTbl` the two range tables. -/
structure Parser where
  input : List Nat
  buf : List Nat
  cur : PTok
  st : List ParserCtx
  symTbl : List Rng
  lnkTbl : List Rng
  num : Int
  bnumsign : Nat
  ctx : Rng
  deriving Repr, DecidableEq

/-- `NewParser` on a reader delivering `bs`. -/
def Parser.init (bs : List Nat) : Parser :=
  { input := bs, buf := [], cur := .tStart, st := [], symTbl := [], lnkTbl := [],
    num := 0, bnumsign := 0, ctx := { beg := 0, en := 0 } }

/-- `p.buf[i]`; indices at or past the write position read as 0, matching
the zero-initialised growth-only Go buffer on a first stream. -/
def Parser.bufGet (p : Parser) (i : Nat) : Nat := p.buf.getD i 0

/-- `Parser.fill`: consume `num` bytes from the reader into the buffer and
return their range; fewer available bytes is `io.ErrUnexpectedEOF` (the
Go `io.EOF` is converted to it at the end of `fill`).  A non-positive
`num` (never requested by well-formed sizes) reads nothing. -/
def Parser.fill (p : Parser) (num : Int) : Except PErr (Rng × Parser) :=
  let beg := p.buf.length
  if (p.input.length : Int) < num then .error .unexpectedEOF
  else
    .ok ({ beg := beg, en := beg + num.toNat },
         { p with buf := p.buf ++ p.input.take num.toNat,
                  input := p.input.drop num.toNat })

/-- Two's-complement reading of a 64-bit `Nat` pattern as a Go `int`. -/
def i64 (pat : Nat) : Int :=
  if pat < 2^63 then (pat : Nat) else (pat : Int) - 2^64

/-- The positive accumulation loop of `Parser.long`:
`n |= int(p.buf[r.beg]) << uint(8*i)` over the inclusive range
`r.beg <= r.end` (one slot beyond the filled bytes — that slot reads 0).
Shift counts of 64 and more vanish, as for a Go 64-bit `int`. -/
def longOrLoop (p : Parser) (beg : Nat) : Nat → Nat → Nat → Nat
  | 0, _, acc => acc
  | cnt+1, k, acc =>
    longOrLoop p (beg + 1) cnt (k + 1) (acc ||| ((p.bufGet beg <<< (8 * k)) % 2^64))

/-- The negative accumulation loop of `Parser.long` (starting from `n = -1`,
i.e. the all-ones pattern): `n &= ^(0xff << 8i); n |= buf[r.beg] << 8i`.
Dead code in the Go source — see `Parser.long` — modelled for fidelity. -/
def longAndOrLoop (p : Parser) (beg : Nat) : Nat → Nat → Nat → Nat
  | 0, _, acc => acc
  | cnt+1, k, acc =>
    let mask := (255 <<< (8 * k)) % 2^64
    let acc' := (acc &&& ((2^64 - 1) ^^^ mask)) ||| ((p.bufGet beg <<< (8 * k)) % 2^64)
    longAndOrLoop p (beg + 1) cnt (k + 1) acc'

/-- `Parser.long`.  NOTE the first line of the Go body is
`n = int(p.buf[p.pos-1])` — the byte is NOT passed through `int8`, so `n`
is always in 0..255: the two negative branches below (kept verbatim) can
never fire, unlike the twin `Decoder.long` in `src/decoder.go`, which
reads `c := int(int8(b))`. -/
def Parser.long (p : Parser) : Except PErr (Int × Parser) :=
  match p.fill 1 with
  | .error e => .error e
  | .ok (_, p) =>
    let n : Int := (p.bufGet (p.buf.length - 1) : Nat)
    if n = 0 then .ok (0, p)
    else if 4 < n ∧ n < 128 then .ok (n - 5, p)
    else if -129 < n ∧ n < -4 then .ok (n + 5, p)
    else if 0 < n then
      match p.fill n with
      | .error e => .error e
      | .ok (r, p) => .ok (i64 (longOrLoop p r.beg (r.en + 1 - r.beg) 0 0), p)
    else
      match p.fill (-n) with
      | .error e => .error e
      | .ok (r, p) => .ok (i64 (longAndOrLoop p r.beg (r.en + 1 - r.beg) 0 (2^64 - 1)), p)

/-- `Parser.sizedBlob`: a packed-long size (doubled for bignums, whose
length is in 16-bit words) followed by that many raw bytes. -/
def Parser.sizedBlob (p : Parser) (bnum : Bool) : Except PErr (Rng × Parser) :=
  match p.long with
  | .error e => .error e
  | .ok (sz, p) => p.fill (if bnum then sz * 2 else sz)

/-- `Parser.pushStack`: a fresh frame with `pos = -1`. -/
def Parser.pushStack (p : Parser) (typ : Nat) (sz : Int) : Parser :=
  { p with st := { typ := typ, sz := sz, pos := -1, ivSym := none } :: p.st }

/-- `Parser.popStack`: drop the current frame and count the finished value
against the parent frame's position. -/
def Parser.popStack (p : Parser) : Parser :=
  match p.st with
  | [] => p
  | _ :: rest =>
    match rest with
    | [] => { p with st := [] }
    | c :: rr => { p with st := { c with pos := c.pos + 1 } :: rr }

/-- `rngTbl.add` on the link table (capacity doubling dropped). -/
def Parser.pushLnk (p : Parser) (r : Rng) : Parser :=
  { p with lnkTbl := p.lnkTbl ++ [r] }

/-- The type-tag switch of `Parser.adv` over the byte at `r.beg`.  The Go
`switch` has no `default` case: an unknown tag leaves `p.cur` (and
everything else) unchanged and reports no error. -/
def Parser.advSwitch (p : Parser) (r : Rng) : Except PErr Parser :=
  let b := p.bufGet r.beg
  if b = TYPE_NIL then .ok { p with cur := .tNil }
  else if b = TYPE_TRUE then .ok { p with cur := .tTrue }
  else if b = TYPE_FALSE then .ok { p with cur := .tFalse }
  else if b = TYPE_FIXNUM then
    match Parser.long { p with cur := .tFixnum } with
    | .error e => .error e
    | .ok (n, p) => .ok { p with num := n }
  else if b = TYPE_FLOAT then
    match Parser.sizedBlob { p with cur := .tFloat } false with
    | .error e => .error e
    | .ok (c, p) =>
      .ok (Parser.pushLnk { p with ctx := c } { r with en := p.buf.length })
  else if b = TYPE_BIGNUM then
    match Parser.fill { p with cur := .tBignum } 1 with
    | .error e => .error e
    | .ok (r2, p) =>
      match Parser.sizedBlob { p with bnumsign := p.bufGet r2.beg } true with
      | .error e => .error e
      | .ok (c, p) => .ok { p with ctx := c }
  else if b = TYPE_SYMBOL then
    match Parser.sizedBlob { p with cur := .tSymbol } false with
    | .error e => .error e
    | .ok (c, p) => .ok { p with ctx := c, symTbl := p.symTbl ++ [c] }
  else if b = TYPE_STRING then
    match Parser.sizedBlob { p with cur := .tString } false with
    | .error e => .error e
    | .ok (c, p) => .ok { p with ctx := c }
  else if b = TYPE_SYMLINK then
    match Parser.long { p with cur := .tSymbol } with
    | .error e => .error e
    | .ok (n, p) =>
      if (p.symTbl.length : Int) ≤ n then .error .symlinkRange
      else if n < 0 then .error .goPanic
      else
        match p.symTbl.get? n.toNat with
        | some c => .ok { p with ctx := c }
        | none => .error .goPanic
  else if b = TYPE_ARRAY then
    match Parser.long { p with cur := .tStartArray } with
    | .error e => .error e
    | .ok (n, p) => .ok (Parser.pushLnk (p.pushStack ctxArray n) r)
  else if b = TYPE_HASH then
    match Parser.long { p with cur := .tStartHash } with
    | .error e => .error e
    | .ok (n, p) => .ok (p.pushStack ctxHash (n * 2))
  else if b = TYPE_IVAR then
    .ok (Parser.pushStack { p with cur := .tStartIVar } ctxIVar (-1))
  else if b = TYPE_LINK then
    match Parser.long { p with cur := .tLink } with
    | .error e => .error e
    | .ok (n, p) => .ok { p with num := n }
  else .ok p

/-- `Parser.adv`.  Before the first token it reads magic plus one tag byte
(`fill 3`); afterwards a short read of the single tag byte — wherever the
parser stands — becomes the `EOF` token, not an error. -/
def Parser.adv (p : Parser) : Except PErr Parser :=
  if p.cur = .tStart then
    match p.fill 3 with
    | .error e => .error e
    | .ok (_, p) =>
      if p.bufGet 0 ≠ 0x04 ∨ p.bufGet 1 ≠ 0x08 then .error .magicMismatch
      else p.advSwitch { beg := 2, en := 0 }
  else
    let beg := p.buf.length
    match p.fill 1 with
    | .error _ => .ok { p with cur := .tEOF }
    | .ok (_, p) => p.advSwitch { beg := beg, en := 0 }

/-- `Parser.advIVar`: end the IVar once `pos == sz`; otherwise advance
`pos`, read the variable-name symbol (anything else is the "expected
Symbol" error), record it in `ivSym`, and read the variable's value. -/
def Parser.advIVar (p : Parser) : Except PErr (PTok × Parser) :=
  match p.st with
  | [] => .error .goPanic
  | c :: rest =>
    if c.pos = c.sz then
      .ok (.tEndIVar, Parser.popStack { p with cur := .tEndIVar })
    else
      let p := { p with st := { c with pos := c.pos + 1 } :: rest }
      match p.adv with
      | .error e => .error e
      | .ok p =>
        if p.cur ≠ .tSymbol then .error .ivarExpectSym
        else
          let sym := (p.buf.drop p.ctx.beg).take (p.ctx.en - p.ctx.beg)
          let p :=
            match p.st with
            | c' :: rest' => { p with st := { c' with ivSym := some sym } :: rest' }
            | [] => p
          match p.adv with
          | .error e => .error e
          | .ok p => .ok (p.cur, p)

/-- The tail of `Parser.Next`: `adv` followed by `p.cst.pos++` (on the
frame that is current AFTER `adv`, which is the freshly pushed frame when
`adv` opened a container). -/
def Parser.nextAdv (p : Parser) : Except PErr (PTok × Parser) :=
  match p.adv with
  | .error e => .error e
  | .ok p =>
    match p.st with
    | [] => .ok (p.cur, p)
    | c :: rest => .ok (p.cur, { p with st := { c with pos := c.pos + 1 } :: rest })

/-- `Parser.Next`. -/
def Parser.Next (p : Parser) : Except PErr (PTok × Parser) :=
  match p.st with
  | c :: rest =>
    if c.typ = ctxIVar then
      if 0 < c.sz then p.advIVar
      else if c.sz < 0 then Parser.nextAdv { p with st := { c with sz := 0 } :: rest }
      else
        match p.long with
        | .error e => .error e
        | .ok (n, p') =>
          Parser.advIVar
            (match p'.st with
             | c' :: rest' => { p' with st := { c' with pos := 0, sz := n } :: rest' }
             | [] => p')
    else if c.pos = c.sz then
      let cur' := if c.typ = ctxArray then PTok.tEndArray
                  else if c.typ = ctxHash then PTok.tEndHash
                  else p.cur
      .ok (cur', Parser.popStack { p with cur := cur' })
    else Parser.nextAdv p
  | [] => Parser.nextAdv p

/-- `Parser.Len`: the declared element count while a `Start*` token is
current, 0 for any other token. -/
def Parser.Len (p : Parser) : Int :=
  if p.cur ≠ .tStartArray ∧ p.cur ≠ .tStartHash then 0
  else
    match p.st with
    | c :: _ => c.sz
    | [] => 0

/-- `Parser.LinkId`: the link id carried by a `Link` token, the just-added
table id for `Float`/`StartArray` — and `-1` for every other token. -/
def Parser.LinkId (p : Parser) : Int :=
  match p.cur with
  | .tLink => p.num
  | .tFloat => (p.lnkTbl.length : Int) - 1
  | .tStartArray => (p.lnkTbl.length : Int) - 1
  | _ => -1

/-- Collect the tokens of successive `Next` calls, stopping at the `EOF`
token (kept in the list) or at the first failure. -/
def traceAux : Parser → Nat → List PTok × Option PErr
  | _, 0 => ([], none)
  | p, fuel+1 =>
    match p.Next with
    | .error e => ([], some e)
    | .ok (t, p') =>
      if t = .tEOF then ([t], none)
      else
        let r := traceAux p' fuel
        (t :: r.1, r.2)

/-- Token trace of a fresh parser over `bs`. -/
def runTrace (bs : List Nat) (fuel : Nat) : List PTok × Option PErr :=
  traceAux (Parser.init bs) fuel

/-- The parser state after `n` successful `Next` calls. -/
def stateAfter : Parser → Nat → Except PErr Parser
  | p, 0 => .ok p
  | p, n+1 =>
    match p.Next with
    | .error e => .error e
    | .ok (_, p') => stateAfter p' n

/-- `stateAfter` from a fresh parser. -/
def afterN (bs : List Nat) (n : Nat) : Except PErr Parser :=
  stateAfter (Parser.init bs) n

/-! ### Spec-side byte arithmetic and concrete streams used by the claims -/

/-- Minimal little-endian byte string of a natural number (empty for 0):
the spec-language description of "the fewest little-endian payload bytes
that determine the value". -/
def natLE (n : Nat) : List Nat :=
  if h : n = 0 then []
  else n % 256 :: natLE (n / 256)
decreasing_by exact Nat.div_lt_self (Nat.pos_of_ne_zero h) (by norm_num)

/-- Value of a little-endian base-2^64 word list (the integer a `big.Int`
word slice denotes). -/
def wordsVal : List Nat → Nat
  | [] => 0
  | d :: rest => d + 2^64 * wordsVal rest

/-- Pad a byte string with one trailing zero when its length is odd — the
spec's "zero-padded when the minimal byte length is odd". -/
def padEven (l : List Nat) : List Nat :=
  if l.length % 2 = 1 then l ++ [0] else l

/-- The error value `Generator.checkState` produces on a full frame whose
tail of the stack is `rest`. -/
def genFullErr (rest : List GenStateItem) : GErr :=
  if rest = [] then .finished else .overflow

/-- Position bump `Parser.Next` applies to the current frame after `adv`. -/
def bumpHead : List ParserCtx → List ParserCtx
  | [] => []
  | c :: rest => { c with pos := c.pos + 1 } :: rest

/-- The generator pipeline of spec §8 scenario 5:
`encode([:foo, :bar, :bar, :foo])`. -/
def encodeC2 : Except GErr (List Nat) :=
  (Generator.StartArray Generator.init 4).bind fun g =>
  (Generator.Symbol g [0x66, 0x6F, 0x6F]).bind fun g =>
  (Generator.Symbol g [0x62, 0x61, 0x72]).bind fun g =>
  (Generator.Symbol g [0x62, 0x61, 0x72]).bind fun g =>
  (Generator.Symbol g [0x66, 0x6F, 0x6F]).bind fun g =>
  (Generator.EndArray g).map Generator.out

/-- The stream `Generator.Fixnum (-1)` produces: `04 08 69 FA`. -/
def c1stream : List Nat := [0x04, 0x08, 0x69, 0xFA]

/-- A stream holding the single string `"a"`. -/
def c3input : List Nat := [0x04, 0x08, 0x22, 0x06, 0x61]

/-- An IVar wrapping `nil` with one instance variable `:a` whose value is
the one-element array `[nil]` — followed by one extra `nil` byte, which a
correct parser would never consume. -/
def c5input : List Nat :=
  [0x04, 0x08, 0x49, 0x30, 0x06, 0x3A, 0x06, 0x61, 0x5B, 0x06, 0x30, 0x30]

/-- A stream that ends right after declaring a one-element array. -/
def c6input : List Nat := [0x04, 0x08, 0x5B, 0x06]

/-- An array declaring two elements: the symbol `:a`, then a symlink whose
packed-long id bytes decode (through the unsigned length-byte reading of
`Parser.long`) to the id `-1`. -/
def c10input : List Nat :=
  [0x04, 0x08, 0x5B, 0x07, 0x3A, 0x06, 0x61, 0x3B, 0x80] ++ List.replicate 128 0xFF

/-! ### Helper lemmas -/

theorem symScan_first :
    ∀ (tbl : List (List Nat)) (s : List Nat) (i : Nat),
      tbl.get? i = some s → (∀ j, j < i → tbl.get? j ≠ some s) →
      symScan tbl s = some i := by
  intro tbl
  induction tbl with
  | nil => intro s i hi _; simp at hi
  | cons t rest ih =>
    intro s i hi hfirst
    cases i with
    | zero =>
      simp at hi
      simp [symScan, hi]
    | succ i =>
      have ht : t ≠ s := by
        intro he
        exact hfirst 0 (Nat.succ_pos i) (by simp [he])
      have hr : symScan rest s = some i := by
        refine ih s i (by simpa using hi) ?_
        intro j hj
        have := hfirst (j + 1) (by omega)
        simpa using this
      simp [symScan, ht, hr]

theorem symScan_not_mem (tbl : List (List Nat)) (s : List Nat) (h : s ∉ tbl) :
    symScan tbl s = none := by
  induction tbl with
  | nil => simp [symScan]
  | cons t rest ih =>
    have ht : t ≠ s := by rintro rfl; exact h (by simp)
    have hr : s ∉ rest := fun hm => h (by simp [hm])
    simp [symScan, ht, ih hr]

theorem natLE_zero : natLE 0 = [] := by
  simp [natLE]

theorem natLE_pos (n : Nat) (h : n ≠ 0) : natLE n = n % 256 :: natLE (n / 256) := by
  rw [natLE]; simp [h]

theorem wordsVal_cons (x : Nat) (l : List Nat) :
    wordsVal (x :: l) = x + 2^64 * wordsVal l := rfl

theorem bigPayload_cons_cons (x y : Nat) (r : List Nat) :
    bigPayload (x :: y :: r) = wordLE x 8 ++ bigPayload (y :: r) := rfl

theorem bigSz_cons_cons (x y : Nat) (r : List Nat) :
    bigSz (x :: y :: r) = 8 + bigSz (y :: r) := rfl

theorem wordsVal_pos :
    ∀ (l : List Nat), (∀ d, l.getLast? = some d → 0 < d) → l ≠ [] → 0 < wordsVal l := by
  intro l
  induction l with
  | nil => intro _ h; exact absurd rfl h
  | cons x rest ih =>
    intro hl _
    cases rest with
    | nil =>
      have := hl x (by simp)
      simpa [wordsVal] using this
    | cons y r =>
      have hpos : 0 < wordsVal (y :: r) := by
        refine ih ?_ (by simp)
        intro d hd
        exact hl d (by simpa [List.getLast?_cons_cons] using hd)
      have h2 : 0 < 2^64 * wordsVal (y :: r) := Nat.mul_pos (by positivity) hpos
      rw [wordsVal_cons]
      omega

theorem lwb_eq :
    ∀ (f d : Nat), 0 < d → d < 2^(8*f) → lastWordBytes d f = natLE d := by
  intro f
  induction f with
  | zero => intro d hd hub; simp at hub; omega
  | succ f ih =>
    intro d hd hub
    rw [natLE_pos d (by omega)]
    by_cases hq : d / 256 = 0
    · simp [lastWordBytes, hq, natLE_zero]
    · have hlt : d / 256 < 2^(8*f) := by
        rw [Nat.div_lt_iff_lt_mul (by norm_num : 0 < 256)]
        calc d < 2^(8*(f+1)) := hub
        _ = 2^(8*f) * 256 := by ring
      simp [lastWordBytes, hq, ih (d / 256) (Nat.pos_of_ne_zero hq) hlt]

theorem natLE_shift :
    ∀ (k d v : Nat), d < 2^(8*k) → 0 < v →
      natLE (d + 2^(8*k) * v) = wordLE d k ++ natLE v := by
  intro k
  induction k with
  | zero =>
    intro d v hd _
    have : d = 0 := by simpa using hd
    simp [this, wordLE]
  | succ k ih =>
    intro d v hd hv
    have hrw : d + 2^(8*(k+1)) * v = d + 256 * (2^(8*k) * v) := by ring
    have hne : d + 2^(8*(k+1)) * v ≠ 0 := by
      have : 0 < 2^(8*(k+1)) * v := by positivity
      omega
    rw [natLE_pos _ hne, hrw]
    have hmod : (d + 256 * (2^(8*k) * v)) % 256 = d % 256 := by
      simp [Nat.add_mul_mod_self_left]
    have hdiv : (d + 256 * (2^(8*k) * v)) / 256 = d / 256 + 2^(8*k) * v := by
      simp [Nat.add_mul_div_left _ _ (by norm_num : (0:Nat) < 256)]
    have hdlt : d / 256 < 2^(8*k) := by
      rw [Nat.div_lt_iff_lt_mul (by norm_num : 0 < 256)]
      calc d < 2^(8*(k+1)) := hd
      _ = 2^(8*k) * 256 := by ring
    rw [hmod, hdiv, ih (d / 256) v hdlt hv]
    simp [wordLE]

theorem bigPayload_natLE :
    ∀ (l : List Nat), (∀ w ∈ l, w < 2^64) → (∀ d, l.getLast? = some d → 0 < d) →
      bigPayload l = natLE (wordsVal l) := by
  intro l
  induction l with
  | nil => simp [bigPayload, wordsVal, natLE_zero]
  | cons x rest ih =>
    intro hw hl
    cases rest with
    | nil =>
      have hx : 0 < x := hl x (by simp)
      have hx64 : x < 2^64 := hw x (by simp)
      have : wordsVal [x] = x := by simp [wordsVal]
      simp only [bigPayload, this]
      exact lwb_eq 8 x hx (by simpa using hx64)
    | cons y r =>
      have hx64 : x < 2^64 := hw x (by simp)
      have hvpos : 0 < wordsVal (y :: r) := by
        refine wordsVal_pos (y :: r) ?_ (by simp)
        intro d hd
        exact hl d (by simpa [List.getLast?_cons_cons] using hd)
      have hrest : bigPayload (y :: r) = natLE (wordsVal (y :: r)) := by
        refine ih (fun w hwm => hw w (by simp [hwm])) ?_
        intro d hd
        exact hl d (by simpa [List.getLast?_cons_cons] using hd)
      rw [bigPayload_cons_cons, wordsVal_cons, hrest,
        natLE_shift 8 x (wordsVal (y :: r)) (by simpa using hx64) hvpos]

theorem wordLE_len : ∀ (k d : Nat), (wordLE d k).length = k := by
  intro k
  induction k with
  | zero => intro d; simp [wordLE]
  | succ k ih => intro d; simp [wordLE, ih]

theorem lastWordSz_len : ∀ (f d : Nat), lastWordSz d f = (lastWordBytes d f).length := by
  intro f
  induction f with
  | zero => intro d; simp [lastWordSz, lastWordBytes]
  | succ f ih =>
    intro d
    by_cases hq : d / 256 = 0
    · simp [lastWordSz, lastWordBytes, hq]
    · simp [lastWordSz, lastWordBytes, hq, ih]
      omega

theorem bigSz_len : ∀ (l : List Nat), bigSz l = (bigPayload l).length := by
  intro l
  induction l with
  | nil => simp [bigSz, bigPayload]
  | cons x rest ih =>
    cases rest with
    | nil => simp [bigSz, bigPayload, lastWordSz_len]
    | cons y r =>
      rw [bigSz_cons_cons, bigPayload_cons_cons, List.length_append, wordLE_len, ih]

/-! ### The claims -/

set_option maxRecDepth 100000

/-- C1.  The claim asserts that decoding `encode_packed_long(n)` with the
parser's packed-long decoder yields `n` back for every `n` in
`[-2^31, 2^31-1]`.  It fails for every negative `n`: `Parser.long` reads
the first byte without the `int8` conversion its own dead negative
branches (and the twin `Decoder.long` of src/decoder.go) require, so the
minimal encoding `FA` of `-1` is taken as a 250-byte positive payload
length and decoding dies with an unexpected-EOF error.  This theorem
evaluates the code at that failing input: `Generator.Fixnum (-1)` emits
the (minimal) stream `04 08 69 FA`, and the parser errors on it instead
of producing a Fixnum token carrying `-1`. -/
theorem claim_C1_eval :
    encodeTop (fun g => Generator.Fixnum g (-1)) = .ok c1stream ∧
    runTrace c1stream 2 = ([], some PErr.unexpectedEOF) := by
  exact ⟨rfl, rfl⟩

/-- C3.  The claim asserts that every linkable value kind (float, bignum,
string, array, hash, class, module, instance, IVar) is registered in the
object link table and reported through `LinkId()`.  The code registers
only floats and arrays: after parsing the string `"a"` the link table is
still empty and `LinkId()` is `-1` — although `LinkId`'s own doc comment
names `TokenString` and `TokenStartHash` as valid.  This theorem
evaluates the code at the failing input. -/
theorem claim_C3_eval :
    (Parser.init c3input).Next.map Prod.fst = .ok PTok.tString ∧
    ((Parser.init c3input).Next.map fun tp => tp.2.lnkTbl.length) = .ok 0 ∧
    ((Parser.init c3input).Next.map fun tp => tp.2.LinkId) = .ok (-1) := by
  exact ⟨rfl, rfl, rfl⟩

/-- C5.  The claim asserts every `Start*` is later matched by one `End*`
with exactly `declared_size` child value tokens in between.  It fails when
an array is the value of an IVar instance variable: `advIVar` returns
straight out of `Next`, skipping the `p.cst.pos++` that normalises a
fresh frame's position from `-1` to `0`, so the array below consumes one
child too many.  On `c5input` the parser emits `StartArray` with declared
size 1 (third token, `Len = 1`) and then TWO `Nil` children before
`EndArray`. -/
theorem claim_C5_eval :
    runTrace c5input 10 =
      ([PTok.tStartIVar, PTok.tNil, PTok.tStartArray, PTok.tNil, PTok.tNil,
        PTok.tEndArray], some PErr.ivarExpectSym) ∧
    (afterN c5input 3).map Parser.Len = .ok 1 := by
  exact ⟨rfl, rfl⟩

/-- C6, counterexample.  The claim asserts `Next` returns an unexpected-EOF
error when input ends between the child values of an unfinished array; on
`c6input` (an array declaring one element, then end of input) the second
`Next` instead succeeds with the `EOF` token. -/
theorem claim_C6_counterexample :
    runTrace c6input 3 = ([PTok.tStartArray, PTok.tEOF], none) := by
  exact rfl

/-- C9.  The six literal fixnum streams of spec §8 scenarios 3–4, with the
magic prepended automatically by construction/reset (last conjunct). -/
theorem claim_C9 :
    encodeTop (fun g => Generator.Fixnum g 0) = .ok [0x04, 0x08, 0x69, 0x00] ∧
    encodeTop (fun g => Generator.Fixnum g 1) = .ok [0x04, 0x08, 0x69, 0x06] ∧
    encodeTop (fun g => Generator.Fixnum g 122) = .ok [0x04, 0x08, 0x69, 0x7F] ∧
    encodeTop (fun g => Generator.Fixnum g (-1)) = .ok [0x04, 0x08, 0x69, 0xFA] ∧
    encodeTop (fun g => Generator.Fixnum g 0xDEAD) = .ok [0x04, 0x08, 0x69, 0x02, 0xAD, 0xDE] ∧
    encodeTop (fun g => Generator.Fixnum g (-0xDEAD)) = .ok [0x04, 0x08, 0x69, 0xFE, 0x53, 0x21] ∧
    Generator.init.buf = [0x04, 0x08] := by
  exact ⟨rfl, rfl, rfl, rfl, rfl, rfl, rfl⟩

/-- C10.  The claim asserts `Next` returns an error on every symlink id
that is not a valid symbol-table index, negative ids included.  The range
check `id >= len(p.symTbl)` only rejects too-large ids: on `c10input` the
symlink id decodes to `-1`, passes the check, and `p.symTbl[id]` is an
out-of-range slice index — a Go runtime panic (`PErr.goPanic`), not an
error value. -/
theorem claim_C10_eval :
    runTrace c10input 3 = ([PTok.tStartArray, PTok.tSymbol], some PErr.goPanic) := by
  exact rfl

/-- C2.  The first `Symbol` call with a given string emits the symbol tag,
its packed-long length and raw bytes, and appends the string to the
per-stream table — so ids are assigned 0, 1, 2, ... in first-appearance
order; every later call with the same string emits a symlink tag carrying
the id of the first appearance (the first table index holding it).  The
closing conjunct is spec §8 scenario 5, `encode([:foo, :bar, :bar, :foo])`
byte for byte. -/
theorem claim_C2 :
    (∀ (g : Generator) (s : List Nat) (i : Nat),
       g.checkState = .ok () →
       g.symTbl.get? i = some s → (∀ j, j < i → g.symTbl.get? j ≠ some s) →
       Generator.Symbol g s =
         .ok (Generator.writeAdv
           { g with buf := g.buf ++ [TYPE_SYMLINK] ++ encodeLong (i : Int) })) ∧
    (∀ (g : Generator) (s : List Nat),
       g.checkState = .ok () → s ∉ g.symTbl →
       Generator.Symbol g s =
         .ok (Generator.writeAdv
           { g with buf := g.buf ++ [TYPE_SYMBOL] ++ encodeLong (s.length : Int) ++ s,
                    symTbl := g.symTbl ++ [s] })) ∧
    encodeC2 = .ok [0x04, 0x08, 0x5B, 0x09, 0x3A, 0x08, 0x66, 0x6F, 0x6F,
                    0x3A, 0x08, 0x62, 0x61, 0x72, 0x3B, 0x06, 0x3B, 0x00] := by
  refine ⟨?_, ?_, rfl⟩
  · intro g s i hok hi hfirst
    simp [Generator.Symbol, symScan_first g.symTbl s i hi hfirst, hok]
  · intro g s hok hmem
    simp [Generator.Symbol, symScan_not_mem g.symTbl s hmem, hok]

/-- Witness for C2: the miss path on a fresh generator and the hit path on
a generator whose table already holds the symbol at index 0. -/
theorem claim_C2_witness :
    Generator.Symbol
        { st := [{ cnt := 2, pos := 0, typ := genStArr }], buf := [], out := [],
          symTbl := [[0x61]] } [0x61] =
      .ok (Generator.writeAdv
        { st := [{ cnt := 2, pos := 0, typ := genStArr }],
          buf := [TYPE_SYMLINK] ++ encodeLong ((0 : Nat) : Int), out := [],
          symTbl := [[0x61]] }) ∧
    Generator.Symbol Generator.init [0x61] =
      .ok (Generator.writeAdv
        { Generator.init with
          buf := Generator.init.buf ++ [TYPE_SYMBOL]
            ++ encodeLong (([0x61] : List Nat).length : Int) ++ [0x61],
          symTbl := Generator.init.symTbl ++ [[0x61]] }) := by
  constructor
  · exact claim_C2.1 _ [0x61] 0 rfl rfl
      (fun j hj => absurd hj (Nat.not_lt_zero j))
  · exact claim_C2.2.1 Generator.init [0x61] rfl (by decide)

/-- C4.  First conjunct: every int64 outside the fixnum bounds is routed by
`Fixnum` to `Bignum` via `SetInt64` — encoded as a bignum, not a fixnum.
Second conjunct: on any well-formed big integer, `Bignum` emits the tag,
the sign byte (`+`/`-` from the sign flag), the packed-long count of
16-bit words, and an even number of little-endian payload bytes — the
minimal byte string of the magnitude, zero-padded once when its minimal
length is odd.  Last conjunct: spec §8 scenario 7,
`Fixnum 0xDEADCAFEBEEF` = tag, sign `+`, word count 3, payload
`EF BE FE CA AD DE`. -/
theorem claim_C4 :
    (∀ (n : Int), -(2^63) ≤ n → n < 2^63 → (n < fixnumMin ∨ fixnumMax < n) →
       ∀ g, Generator.Fixnum g n = Generator.Bignum g (BigI.setInt64 n)) ∧
    (∀ (g : Generator) (b : BigI), b.wf → g.checkState = .ok () →
       Generator.Bignum g b =
         .ok (Generator.writeAdv { g with
           buf := g.buf ++ [TYPE_BIGNUM, b.signByte]
             ++ encodeLong (((padEven (natLE (wordsVal b.bits))).length / 2 : Nat) : Int)
             ++ padEven (natLE (wordsVal b.bits)) }) ∧
       (padEven (natLE (wordsVal b.bits))).length % 2 = 0 ∧
       b.signByte = (if b.neg = true then 0x2D else 0x2B)) ∧
    encodeTop (fun g => Generator.Fixnum g 0xDEADCAFEBEEF) =
      .ok [0x04, 0x08, 0x6C, 0x2B, 0x08, 0xEF, 0xBE, 0xFE, 0xCA, 0xAD, 0xDE] := by
  refine ⟨?_, ?_, rfl⟩
  · intro n _ _ h g
    unfold Generator.Fixnum
    rw [if_pos h]
  · intro g b hwf hok
    obtain ⟨hw, hlast, hnegbits⟩ := hwf
    have hpay : bigPayload b.bits = natLE (wordsVal b.bits) :=
      bigPayload_natLE b.bits hw hlast
    have hsz : bigSz b.bits = (natLE (wordsVal b.bits)).length := by
      rw [bigSz_len, hpay]
    refine ⟨?_, ?_, ?_⟩
    · simp only [Generator.Bignum, hok, hsz, hpay]
      by_cases hpar : (natLE (wordsVal b.bits)).length % 2 = 1
      · simp only [hpar, if_pos, padEven, if_true]
        have h1 : (natLE (wordsVal b.bits)).length + 1 - (natLE (wordsVal b.bits)).length = 1 := by
          omega
        have h2 : ((natLE (wordsVal b.bits)).length + 1 + 1) / 2
            = ((natLE (wordsVal b.bits)) ++ [0]).length / 2 := by
          simp only [List.length_append, List.length_cons, List.length_nil]
          omega
        rw [h1, h2]
        simp
      · simp only [hpar, if_false, padEven, if_neg]
        have h1 : (natLE (wordsVal b.bits)).length - (natLE (wordsVal b.bits)).length = 0 := by
          omega
        have h2 : ((natLE (wordsVal b.bits)).length + 1) / 2
            = (natLE (wordsVal b.bits)).length / 2 := by
          omega
        rw [h1, h2]
        simp
    · simp only [padEven]
      by_cases hpar : (natLE (wordsVal b.bits)).length % 2 = 1 <;>
        simp [hpar] <;> omega
    · simp only [BigI.signByte]
      cases hb : b.neg with
      | true => simp [hnegbits hb]
      | false => simp

/-- Witness for C4: the promotion at `n = 2^31` (just above `fixnumMax`)
and the bignum emission for `SetInt64 3`. -/
theorem claim_C4_witness :
    Generator.Fixnum Generator.init (2^31) =
      Generator.Bignum Generator.init (BigI.setInt64 (2^31)) ∧
    Generator.Bignum Generator.init (BigI.setInt64 3) =
      .ok (Generator.writeAdv { Generator.init with
        buf := Generator.init.buf ++ [TYPE_BIGNUM, (BigI.setInt64 3).signByte]
          ++ encodeLong (((padEven (natLE (wordsVal (BigI.setInt64 3).bits))).length / 2 : Nat) : Int)
          ++ padEven (natLE (wordsVal (BigI.setInt64 3).bits)) }) := by
  constructor
  · exact claim_C4.1 (2^31) (by decide) (by decide) (Or.inr (by decide)) Generator.init
  · refine (claim_C4.2.1 Generator.init (BigI.setInt64 3) ?_ rfl).1
    refine ⟨?_, ?_, ?_⟩
    · intro w hw
      simp [BigI.setInt64] at hw
      omega
    · intro d hd
      simp [BigI.setInt64] at hd
      omega
    · intro h
      simp [BigI.setInt64] at h

/-- C6, amended.  `Next` yields the `EOF` token (with the current frame's
position still incremented, as `nextAdv` always does) whenever the
tag-byte read hits the end of the input: at the clean top-level boundary
(empty stack) exactly as the claim says, but equally between the child
values of an unfinished array or hash — where the claim demanded an
unexpected-EOF error.  Input that ends inside a value's payload (packed
long, blob, bignum sign, magic) still surfaces an error, as the C1 and C5
evaluation theorems show on concrete streams. -/
theorem claim_C6_amended (p : Parser) (hcur : p.cur ≠ PTok.tStart) (hin : p.input = [])
    (hst : p.st = [] ∨ ∃ c rest, p.st = c :: rest ∧
      (c.typ = ctxArray ∨ c.typ = ctxHash) ∧ c.pos ≠ c.sz) :
    p.Next = .ok (PTok.tEOF, { p with cur := PTok.tEOF, st := bumpHead p.st }) := by
  rcases hst with h | ⟨c, rest, h, hk, hps⟩
  · simp [Parser.Next, h, Parser.nextAdv, Parser.adv, hcur, Parser.fill, hin, bumpHead]
  · rcases hk with hk | hk <;>
      simp [Parser.Next, h, hk, ctxArray, ctxHash, ctxIVar, hps,
        Parser.nextAdv, Parser.adv, hcur, Parser.fill, hin, bumpHead]

/-- Witness for C6: end of input inside an array frame with 0 of 1
elements read yields the `EOF` token. -/
theorem claim_C6_witness :
    Parser.Next
        { input := [], buf := [], cur := PTok.tNil,
          st := [{ typ := ctxArray, sz := 1, pos := 0, ivSym := none }],
          symTbl := [], lnkTbl := [], num := 0, bnumsign := 0,
          ctx := { beg := 0, en := 0 } } =
      .ok (PTok.tEOF,
        { input := [], buf := [], cur := PTok.tEOF,
          st := bumpHead [{ typ := ctxArray, sz := 1, pos := 0, ivSym := none }],
          symTbl := [], lnkTbl := [], num := 0, bnumsign := 0,
          ctx := { beg := 0, en := 0 } }) := by
  exact claim_C6_amended _ (by decide) rfl (Or.inr ⟨_, _, rfl, Or.inl rfl, by decide⟩)

/-- C7.  With the current frame full (`pos = cnt`), every value-writing
call fails before emitting anything: `ErrGeneratorFinished` when the full
frame is the synthetic top (stack tail empty), `ErrGeneratorOverflow`
when it is an enclosed container frame.  The error return carries no new
state — no bytes of the rejected value reach the buffer or the sink.
(`Float` carries the same leading `checkState` guard but its payload
formatting is outside the embedding, see the header.) -/
theorem claim_C7 (g : Generator) (c : GenStateItem) (rest : List GenStateItem)
    (hst : g.st = c :: rest) (hfull : c.pos = c.cnt) :
    Generator.Nil g = .error (genFullErr rest) ∧
    (∀ b, Generator.Bool g b = .error (genFullErr rest)) ∧
    (∀ n, Generator.Fixnum g n = .error (genFullErr rest)) ∧
    (∀ b, Generator.Bignum g b = .error (genFullErr rest)) ∧
    (∀ s, Generator.Symbol g s = .error (genFullErr rest)) ∧
    (∀ s, Generator.String g s = .error (genFullErr rest)) ∧
    (∀ l, Generator.StartArray g l = .error (genFullErr rest)) ∧
    (∀ l, Generator.StartHash g l = .error (genFullErr rest)) ∧
    (∀ s, Generator.Class g s = .error (genFullErr rest)) ∧
    (∀ s, Generator.Module g s = .error (genFullErr rest)) := by
  have hchk : g.checkState = .error (genFullErr rest) := by
    by_cases hr : rest = [] <;>
      simp [Generator.checkState, hst, hfull, genFullErr, hr]
  refine ⟨?_, ?_, ?_, ?_, ?_, ?_, ?_, ?_, ?_, ?_⟩
  · simp [Generator.Nil, hchk]
  · intro b; simp [Generator.Bool, hchk]
  · intro n
    by_cases hn : n < fixnumMin ∨ fixnumMax < n <;>
      simp [Generator.Fixnum, hn, Generator.Bignum, hchk]
  · intro b; simp [Generator.Bignum, hchk]
  · intro s
    cases hscan : symScan g.symTbl s <;> simp [Generator.Symbol, hscan, hchk]
  · intro s; simp [Generator.String, hchk]
  · intro l; simp [Generator.StartArray, hchk]
  · intro l; simp [Generator.StartHash, hchk]
  · intro s; simp [Generator.Class, hchk]
  · intro s; simp [Generator.Module, hchk]

/-- Witness for C7: `Finished` after the single top-level value,
`Overflow` inside a full array frame. -/
theorem claim_C7_witness :
    Generator.Nil { st := [{ cnt := 1, pos := 1, typ := genStTop }], buf := [],
                    out := [0x04, 0x08, 0x30], symTbl := [] } = .error .finished ∧
    Generator.StartArray
        { st := [{ cnt := 2, pos := 2, typ := genStArr },
                 { cnt := 1, pos := 0, typ := genStTop }],
          buf := [0x04, 0x08], out := [], symTbl := [] } 5 = .error .overflow := by
  constructor
  · exact (claim_C7 _ _ [] rfl rfl).1
  · exact (claim_C7 _ _ [{ cnt := 1, pos := 0, typ := genStTop }] rfl rfl).2.2.2.2.2.2.1 5

/-- C8.  `EndArray` (resp. `EndHash`) fails with the wrong-context error
when the stack is empty or the current frame is not of the matching kind;
fails with the premature-close error when the kind matches but the frame
is not full; and succeeds — popping the frame and advancing the parent —
exactly when the kind matches and `pos = cnt`.  (The generator's writes
keep `pos ≤ cnt`, so "not full" is "strictly fewer elements written".) -/
theorem claim_C8 (g : Generator) :
    (g.st = [] →
      Generator.EndArray g = .error .arrayCtx ∧ Generator.EndHash g = .error .hashCtx) ∧
    (∀ c rest, g.st = c :: rest →
      (c.typ ≠ genStArr → Generator.EndArray g = .error .arrayCtx) ∧
      (c.typ = genStArr → c.pos ≠ c.cnt → Generator.EndArray g = .error .arrayPremature) ∧
      (c.typ = genStArr → c.pos = c.cnt →
        Generator.EndArray g = .ok (Generator.writeAdv { g with st := rest })) ∧
      (c.typ ≠ genStHash → Generator.EndHash g = .error .hashCtx) ∧
      (c.typ = genStHash → c.pos ≠ c.cnt → Generator.EndHash g = .error .hashPremature) ∧
      (c.typ = genStHash → c.pos = c.cnt →
        Generator.EndHash g = .ok (Generator.writeAdv { g with st := rest }))) := by
  constructor
  · intro h
    constructor <;> simp [Generator.EndArray, Generator.EndHash, h]
  · intro c rest h
    refine ⟨?_, ?_, ?_, ?_, ?_, ?_⟩
    · intro ht; simp [Generator.EndArray, h, ht]
    · intro ht hp; simp [Generator.EndArray, h, ht, hp]
    · intro ht hp; simp [Generator.EndArray, Generator.pop, h, ht, hp]
    · intro ht; simp [Generator.EndHash, h, ht]
    · intro ht hp; simp [Generator.EndHash, h, ht, hp]
    · intro ht hp; simp [Generator.EndHash, Generator.pop, h, ht, hp]

/-- Witness for C8: a full array frame closes and pops; `EndHash` on it is
the wrong-context error; a half-filled array frame is a premature close. -/
theorem claim_C8_witness :
    Generator.EndArray
        { st := [{ cnt := 2, pos := 2, typ := genStArr },
                 { cnt := 1, pos := 0, typ := genStTop }],
          buf := [0x04, 0x08], out := [], symTbl := [] } =
      .ok (Generator.writeAdv
        { st := [{ cnt := 1, pos := 0, typ := genStTop }],
          buf := [0x04, 0x08], out := [], symTbl := [] }) ∧
    Generator.EndHash
        { st := [{ cnt := 2, pos := 2, typ := genStArr },
                 { cnt := 1, pos := 0, typ := genStTop }],
          buf := [0x04, 0x08], out := [], symTbl := [] } = .error .hashCtx ∧
    Generator.EndArray
        { st := [{ cnt := 4, pos := 1, typ := genStArr }],
          buf := [], out := [], symTbl := [] } = .error .arrayPremature := by
  refine ⟨?_, ?_, ?_⟩
  · exact ((claim_C8 _).2 _ _ rfl).2.2.1 rfl rfl
  · exact ((claim_C8 _).2 _ _ rfl).2.2.2.1 (by decide)
  · exact ((claim_C8 _).2 _ _ rfl).2.1 rfl (by decide)
